import Mathlib

/-!
Shallow embedding of `util.py` from the copepod-biomass repository:
grid generation (`latlon_to_scrip`), sparse weight application
(`esmf_apply_weights`) and the `regridder` class.

Modeling conventions:
* IEEE-754 doubles are modeled by `FV`: either NaN or a finite value,
  idealized as an exact rational.  The properties under study concern NaN
  propagation and exact structural facts, not rounding.
* numpy arrays are modeled by `NDArray`: a shape, the C-order flattened
  data, and the C_CONTIGUOUS flag.
* a scipy COO sparse matrix is a shape plus a list of (row, col, value)
  entries; its matrix-vector product accumulates `acc + s * x[col]` over
  the stored entries of each output row, starting from 0.0 (so an output
  row with no stored entries is exactly 0.0).
* Python exceptions (AssertionError, NameError) are modeled by
  `Except String`.
* the global numpy floating-point error state (`np.seterr`) is threaded
  explicitly through `regrid_dataarray`.
* the real-valued area computation of `latlon_to_scrip` (which uses `sin`)
  is modeled over `ℝ`; the coordinate arithmetic is modeled over `ℚ`.
-/

deriving instance DecidableEq for Except

namespace Copepod

/-- A double-precision value: NaN, or a finite value (idealized as `ℚ`). -/
inductive FV where
  | nan : FV
  | val : ℚ → FV
deriving DecidableEq, Repr

/-- IEEE addition: NaN absorbs. -/
def FV.add : FV → FV → FV
  | .val a, .val b => .val (a + b)
  | _, _ => .nan

/-- IEEE multiplication: NaN absorbs; in particular `0 * NaN = NaN`. -/
def FV.mul : FV → FV → FV
  | .val a, .val b => .val (a * b)
  | _, _ => .nan

/-- IEEE division as exercised by `regrid_dataarray`: NaN absorbs.  The
code divides only by strictly positive values or NaN (zero denominators
are replaced by NaN *before* the division), so the `val a / val 0` case is
unreachable there; we map it to NaN. -/
def FV.div : FV → FV → FV
  | .val a, .val b => if b = 0 then .nan else .val (a / b)
  | _, _ => .nan

/-- `np.isnan` on one element. -/
def FV.isnan : FV → Bool
  | .nan => true
  | .val _ => false

/-- The comparison `x > 0.0`; IEEE comparisons with NaN are false. -/
def FV.gt0 : FV → Bool
  | .nan => false
  | .val a => decide (0 < a)

/-- A scipy COO sparse matrix: shape and stored (row, col, value) triplets. -/
structure CooMatrix where
  rows : ℕ
  cols : ℕ
  entries : List (ℕ × ℕ × ℚ)
deriving DecidableEq, Repr

/-- Output row `r` of the COO matrix-vector product `w.dot(x)`: scipy
accumulates `out[row k] += S k * x[col k]` over the stored entries, so row
`r` is a left fold over the entries stored for row `r`, starting at 0.0. -/
def cooRow (w : CooMatrix) (x : List FV) (r : ℕ) : FV :=
  (w.entries.filter (fun e => e.1 == r)).foldl
    (fun acc e => acc.add ((FV.val e.2.2).mul (x.getD e.2.1 (FV.val 0)))) (FV.val 0)

/-- A numpy ndarray: shape, C-order flattened data, C_CONTIGUOUS flag. -/
structure NDArray where
  shape : List ℕ
  data : List FV
  c_contig : Bool
deriving DecidableEq, Repr

/-- NameError raised by `warnings.warn` on util.py line 146: the `warnings`
module is never imported in util.py (imports are os, datetime,
scipy.sparse, numpy, xarray), so Python raises NameError there. -/
def nameErrMsg : String := "NameError: name warnings is not defined"

/-- Message of the first assert of `esmf_apply_weights` (util.py 153). -/
def shapeHorizMsg : String :=
  "AssertionError: the horizontal shape of input data is different from that of the regridder"

/-- Message of the second assert of `esmf_apply_weights` (util.py 158). -/
def colsMsg : String := "AssertionError: ny_in * nx_in should equal to weights.shape[1]"

/-- Message of the third assert of `esmf_apply_weights` (util.py 162). -/
def rowsMsg : String := "AssertionError: ny_out * nx_out should equal to weights.shape[0]"

/-- Flattened C-order result of `weights.dot(indata_flat.T).T` for a batch
of `nbatch` source rows of length `k` each: output flat index `i` encodes
batch `i / w.rows` and destination cell `i % w.rows`. -/
def cooApplyBatched (w : CooMatrix) (x : List FV) (k nbatch : ℕ) : List FV :=
  (List.range (nbatch * w.rows)).map
    (fun i => cooRow w ((x.drop ((i / w.rows) * k)).take k) (i % w.rows))

/-- `esmf_apply_weights(weights, indata, shape_in, shape_out)`, util.py
122-173.  The contiguity check precedes the three shape asserts; the
asserts precede the reshape / dot / reshape computation. -/
def esmf_apply_weights (weights : CooMatrix) (indata : NDArray)
    (shape_in shape_out : ℕ × ℕ) : Except String NDArray :=
  if indata.c_contig = false then
    .error nameErrMsg
  else
    let shape_horiz := indata.shape.drop (indata.shape.length - 2)
    let extra_shape := indata.shape.take (indata.shape.length - 2)
    if shape_horiz ≠ [shape_in.1, shape_in.2] then .error shapeHorizMsg
    else if shape_in.1 * shape_in.2 ≠ weights.cols then .error colsMsg
    else if shape_out.1 * shape_out.2 ≠ weights.rows then .error rowsMsg
    else
      .ok ⟨extra_shape ++ [shape_out.1, shape_out.2],
           cooApplyBatched weights indata.data (shape_in.1 * shape_in.2) extra_shape.prod,
           true⟩

example :
    esmf_apply_weights ⟨1, 1, [(0, 0, 1)]⟩ ⟨[1, 1], [FV.val 7], true⟩ (1, 1) (1, 1)
      = .ok ⟨[1, 1], [FV.val 7], true⟩ := by
  norm_num [esmf_apply_weights, cooApplyBatched, cooRow, FV.add, FV.mul,
    show List.range 1 = [0] from rfl]

example :
    esmf_apply_weights ⟨1, 1, [(0, 0, 1)]⟩ ⟨[1, 1], [FV.val 7], false⟩ (1, 1) (1, 1)
      = .error nameErrMsg := by
  norm_num [esmf_apply_weights]

/-- The numpy floating-point error state, as managed by `np.seterr`.  Only
the `invalid` field is ever touched by this code. -/
structure ErrState where
  divide : String
  over : String
  under : String
  invalid : String
deriving DecidableEq, Repr

/-- The `regridder` object state after `__init__` (util.py 178-201). -/
structure Regridder where
  dims_src : ℕ × ℕ
  dims_dst : ℕ × ℕ
  mask_dst : List ℤ
  weights : CooMatrix
deriving DecidableEq, Repr

/-- numpy 2-D transpose on the flat C-order data of an array of shape
`(r, c)`: the result has shape `(c, r)` and flat entry `t` (encoding
`j = t / r`, `i = t % r`) is the input entry at `i * c + j`. -/
def transpose2D (r c : ℕ) (xs : List ℤ) : List ℤ :=
  (List.range (c * r)).map (fun t => xs.getD ((t % r) * c + t / r) 0)

/-- `regridder.__init__` (util.py 178-201), modeled on the data read from
the three files: `grid_dims` is stored as `[nx, ny]` and reversed on load;
the destination mask is reshaped to `dims_dst` and transposed; the weight
table triplets are 1-based and converted to 0-based. -/
def regridder_init (src_grid_dims dst_grid_dims : ℕ × ℕ)
    (dst_imask : List ℤ) (wf : List (ℕ × ℕ × ℚ)) : Regridder :=
  let dims_src := (src_grid_dims.2, src_grid_dims.1)
  let dims_dst := (dst_grid_dims.2, dst_grid_dims.1)
  { dims_src := dims_src
    dims_dst := dims_dst
    mask_dst := transpose2D dims_dst.1 dims_dst.2 dst_imask
    weights := ⟨dims_dst.1 * dims_dst.2, dims_src.1 * dims_src.2,
                wf.map (fun e => (e.1 - 1, e.2.1 - 1, e.2.2))⟩ }

/-- `np.where(np.isnan(a), 0.0, 1.0)`: the renormalization indicator.
`np.where` allocates a fresh C-contiguous array. -/
def onesLike (a : NDArray) : NDArray :=
  ⟨a.shape, a.data.map (fun v => if v.isnan then FV.val 0 else FV.val 1), true⟩

/-- `np.where(np.isnan(a), 0.0, a)`: replace NaN by 0.0, fresh array. -/
def zeroFilled (a : NDArray) : NDArray :=
  ⟨a.shape, a.data.map (fun v => if v.isnan then FV.val 0 else v), true⟩

/-- `da_out.where(self.mask_dst.T)` (util.py 246): the mask (shape
`dims_dst = (ny, nx)` after the second transpose) is broadcast over the
leading dimensions; a cell with mask value 0 becomes NaN. -/
def applyMaskWhere (rg : Regridder) (a : NDArray) : NDArray :=
  let maskT := transpose2D rg.dims_dst.2 rg.dims_dst.1 rg.mask_dst
  let k := rg.dims_dst.1 * rg.dims_dst.2
  ⟨a.shape,
   (List.range a.data.length).map
     (fun i => if maskT.getD (i % k) 0 ≠ 0 then a.data.getD i FV.nan else FV.nan),
   a.c_contig⟩

/-- `regridder.regrid_dataarray(da_in, renormalize, apply_mask)` (util.py
208-248), with the numpy error state threaded explicitly.  `np.seterr` is
called inside the renormalize block (line 230) and restored at line 237;
an exception escaping from within that block would leave the modified
state in place (there is no try/finally in the source). -/
def regrid_dataarray (rg : Regridder) (da_in : NDArray)
    (renormalize apply_mask : Bool) (errst : ErrState) :
    Except String NDArray × ErrState :=
  let ones_src := onesLike da_in
  let data_src := if renormalize then zeroFilled da_in else da_in
  match esmf_apply_weights rg.weights data_src rg.dims_src rg.dims_dst with
  | .error e => (.error e, errst)
  | .ok data_dst =>
    if renormalize then
      let old_err_settings := errst
      let errst1 : ErrState := { errst with invalid := "ignore" }
      match esmf_apply_weights rg.weights ones_src rg.dims_src rg.dims_dst with
      | .error e => (.error e, errst1)
      | .ok ones_dst0 =>
        let ones_dst := ones_dst0.data.map (fun v => if v.gt0 then v else FV.nan)
        let divided := List.zipWith FV.div data_dst.data ones_dst
        let renormed := List.zipWith
          (fun c v => if c.gt0 then v else FV.nan) ones_dst divided
        let da_out : NDArray := ⟨data_dst.shape, renormed, true⟩
        let errst2 := old_err_settings
        ((.ok (if apply_mask then applyMaskWhere rg da_out else da_out)), errst2)
    else
      ((.ok (if apply_mask then applyMaskWhere rg data_dst else data_dst)), errst)

/-! ### Grid generation: `latlon_to_scrip` (util.py 9-119)

The coordinate arithmetic (lines 36-56) is exact in rationals; the area
computation (lines 58-63) uses `sin` and is modeled over `ℝ`.  The
`np.testing.assert_allclose` on line 66 compares the area sum with `4π`;
in the exact-real model the tolerance collapses to equality. -/

/-- `np.arange(start, stop, step)` for positive `step`: numpy produces
`⌈(stop - start) / step⌉` evenly spaced values `start + k * step`. -/
def np_arange (start stop step : ℚ) : List ℚ :=
  (List.range (Int.toNat ⌈(stop - start) / step⌉)).map
    (fun k : ℕ => start + (k : ℚ) * step)

/-- util.py line 38: `lat = np.arange(-90 + dy/2, 90, dy)` with `dy = 180/ny`. -/
def latCenters (ny : ℕ) : List ℚ :=
  np_arange (-90 + ((180 : ℚ) / ny) / 2) 90 ((180 : ℚ) / ny)

/-- util.py line 39: `lon = np.arange(lon0 + dx/2, lon0 + 360, dx)` with
`dx = 360/nx`. -/
def lonCenters (nx : ℕ) (lon0 : ℚ) : List ℚ :=
  np_arange (lon0 + ((360 : ℚ) / nx) / 2) (lon0 + 360) ((360 : ℚ) / nx)

/-- util.py line 42: `y_center = broadcast_to(lat[:, None], (ny, nx))`,
flattened C-order (line 78 reshapes to `(-1,)`). -/
def y_center_flat (nx ny : ℕ) : List ℚ :=
  (List.range (ny * nx)).map (fun t => (latCenters ny).getD (t / nx) 0)

/-- util.py line 43: `x_center = broadcast_to(lon[None, :], (ny, nx))`,
flattened C-order. -/
def x_center_flat (nx ny : ℕ) (lon0 : ℚ) : List ℚ :=
  (List.range (ny * nx)).map (fun t => (lonCenters nx lon0).getD (t % nx) 0)

/-- util.py lines 46-50: per-cell corner latitudes (SW, SE, NE, NW),
flattened to shape `[ny*nx, 4]`. -/
def y_corner_flat (nx ny : ℕ) : List (List ℚ) :=
  (List.range (ny * nx)).map (fun t =>
    let dy : ℚ := (180 : ℚ) / ny
    let yc := (latCenters ny).getD (t / nx) 0
    [yc - dy / 2, yc - dy / 2, yc + dy / 2, yc + dy / 2])

/-- util.py lines 52-56: per-cell corner longitudes (SW, SE, NE, NW). -/
def x_corner_flat (nx ny : ℕ) (lon0 : ℚ) : List (List ℚ) :=
  (List.range (ny * nx)).map (fun t =>
    let dx : ℚ := (360 : ℚ) / nx
    let xc := (lonCenters nx lon0).getD (t % nx) 0
    [xc - dx / 2, xc + dx / 2, xc + dx / 2, xc - dx / 2])

/-- util.py lines 58-63: spherical cell area
`(sin(north) - sin(south)) * (east - west)` in radians, for cell `(i, j)`.
South/north are the SW/NW corner latitudes, west/east the SW/SE corner
longitudes, all recovered from the centers exactly as in the source. -/
noncomputable def cellArea (nx ny : ℕ) (lon0 : ℚ) (i j : ℕ) : ℝ :=
  let dy : ℚ := (180 : ℚ) / ny
  let dx : ℚ := (360 : ℚ) / nx
  let yc : ℚ := (latCenters ny).getD i 0
  let xc : ℚ := (lonCenters nx lon0).getD j 0
  (Real.sin (((yc + dy / 2 : ℚ) : ℝ) * Real.pi / 180)
      - Real.sin (((yc - dy / 2 : ℚ) : ℝ) * Real.pi / 180))
    * (((xc + dx / 2 : ℚ) : ℝ) * Real.pi / 180
        - ((xc - dx / 2 : ℚ) : ℝ) * Real.pi / 180)

/-- `grid_area.sum()` (util.py line 66). -/
noncomputable def areaSum (nx ny : ℕ) (lon0 : ℚ) : ℝ :=
  ∑ i ∈ Finset.range ny, ∑ j ∈ Finset.range nx, cellArea nx ny lon0 i j

/-- The SCRIP dataset produced by `latlon_to_scrip` (util.py 72-112).
`grid_area` is real-valued and is modeled separately by `cellArea` /
`areaSum`; metadata attributes carry no behavior and are omitted. -/
structure GridDataset where
  grid_dims : List ℕ
  grid_center_lat : List ℚ
  grid_center_lon : List ℚ
  grid_corner_lat : List (List ℚ)
  grid_corner_lon : List (List ℚ)
  grid_imask : List ℤ
deriving DecidableEq, Repr

/-- The dataset fields written by util.py lines 72-101. -/
def gridDatasetOf (nx ny : ℕ) (lon0 : ℚ) (grid_imask : Option (List ℤ)) :
    GridDataset where
  grid_dims := [nx, ny]
  grid_center_lat := y_center_flat nx ny
  grid_center_lon := x_center_flat nx ny lon0
  grid_corner_lat := y_corner_flat nx ny
  grid_corner_lon := x_corner_flat nx ny lon0
  grid_imask := grid_imask.getD (List.replicate (ny * nx) 1)

open Classical in
/-- `latlon_to_scrip(nx, ny, lon0, grid_imask)` (util.py 9-119): the
`assert_allclose` on line 66 aborts generation (AssertionError) unless the
total cell area equals the full-sphere solid angle `4π`. -/
noncomputable def latlon_to_scrip (nx ny : ℕ) (lon0 : ℚ)
    (grid_imask : Option (List ℤ)) : Except String GridDataset :=
  if areaSum nx ny lon0 = 4 * Real.pi then .ok (gridDatasetOf nx ny lon0 grid_imask)
  else .error "AssertionError: grid_area.sum() is not close to 4*pi"

/-! ### List and `FV` infrastructure -/

lemma getD_eq_getElem {α} (l : List α) (n : ℕ) (d : α) (h : n < l.length) :
    l.getD n d = l[n] := by
  rw [List.getD_eq_getElem?_getD, List.getElem?_eq_getElem h]; rfl

lemma rangeMap_getElem? {α} (f : ℕ → α) (n i : ℕ) (h : i < n) :
    ((List.range n).map f)[i]? = some (f i) := by
  rw [List.getElem?_map, List.getElem?_range h]; rfl

lemma rangeMap_getD {α} (f : ℕ → α) (n i : ℕ) (d : α) (h : i < n) :
    ((List.range n).map f).getD i d = f i := by
  rw [List.getD_eq_getElem?_getD, rangeMap_getElem? f n i h]; rfl

lemma rangeMap_getD_self {α} (l : List α) (d : α) :
    (List.range l.length).map (fun i => l.getD i d) = l := by
  apply List.ext_getElem?
  intro i
  by_cases h : i < l.length
  · rw [rangeMap_getElem? _ _ _ h, List.getElem?_eq_getElem h, getD_eq_getElem _ _ _ h]
  · rw [List.getElem?_eq_none (by simpa using h), List.getElem?_eq_none (by omega)]

lemma zipWith_getD {α β γ} (f : α → β → γ) (as : List α) (bs : List β)
    (i : ℕ) (d : γ) (da : α) (db : β) (ha : i < as.length) (hb : i < bs.length) :
    (List.zipWith f as bs).getD i d = f (as.getD i da) (bs.getD i db) := by
  have hz : i < (List.zipWith f as bs).length := by
    rw [List.length_zipWith]; omega
  rw [getD_eq_getElem _ _ _ hz, getD_eq_getElem _ _ _ ha, getD_eq_getElem _ _ _ hb]
  exact List.getElem_zipWith

lemma map_getD {α β} (f : α → β) (l : List α) (i : ℕ) (d : β) (da : α)
    (h : i < l.length) : (l.map f).getD i d = f (l.getD i da) := by
  have hm : i < (l.map f).length := by simpa using h
  rw [getD_eq_getElem _ _ _ hm, getD_eq_getElem _ _ _ h]
  simp

lemma FV.add_nan (v : FV) : v.add .nan = .nan := by cases v <;> rfl

lemma FV.mul_nan (v : FV) : v.mul .nan = .nan := by cases v <;> rfl

/-- The single identity-weight accumulation step returns the input value
unchanged, also when it is NaN. -/
lemma FV.id_step (v : FV) : (FV.val 0).add ((FV.val 1).mul v) = v := by
  cases v <;> simp [FV.add, FV.mul]

/-! ### `cooRow` and `cooApplyBatched` lemmas -/

lemma cooApplyBatched_length (w : CooMatrix) (x : List FV) (k nb : ℕ) :
    (cooApplyBatched w x k nb).length = nb * w.rows := by
  simp [cooApplyBatched]

lemma cooApplyBatched_getD (w : CooMatrix) (x : List FV) (k nb i : ℕ) (d : FV)
    (h : i < nb * w.rows) :
    (cooApplyBatched w x k nb).getD i d
      = cooRow w ((x.drop ((i / w.rows) * k)).take k) (i % w.rows) := by
  unfold cooApplyBatched
  exact rangeMap_getD _ _ _ _ h

/-- The accumulating function of `cooRow`. -/
def cooStep (x : List FV) : FV → ℕ × ℕ × ℚ → FV :=
  fun acc e => acc.add ((FV.val e.2.2).mul (x.getD e.2.1 (FV.val 0)))

lemma cooRow_eq_foldl (w : CooMatrix) (x : List FV) (r : ℕ) :
    cooRow w x r = (w.entries.filter (fun e => e.1 == r)).foldl (cooStep x) (FV.val 0) := rfl

lemma foldl_cooStep_nan (x : List FV) (l : List (ℕ × ℕ × ℚ)) :
    l.foldl (cooStep x) FV.nan = FV.nan := by
  induction l with
  | nil => rfl
  | cons e t ih => simpa [cooStep, FV.add] using ih

lemma foldl_cooStep_absorb (x : List FV) (l : List (ℕ × ℕ × ℚ)) (e : ℕ × ℕ × ℚ)
    (he : e ∈ l) (hx : x.getD e.2.1 (FV.val 0) = FV.nan) (acc : FV) :
    l.foldl (cooStep x) acc = FV.nan := by
  induction l generalizing acc with
  | nil => cases he
  | cons hd t ih =>
    rcases List.mem_cons.mp he with rfl | hmem
    · rw [List.foldl_cons]
      have : cooStep x acc e = FV.nan := by
        rw [cooStep, hx, FV.mul_nan, FV.add_nan]
      rw [this, foldl_cooStep_nan]
    · exact List.foldl_cons _ _ ▸ ih hmem _

/-- If every input value read by the stored entries of a row is `1.0`, the
COO row accumulates the plain sum of the stored weights. -/
lemma foldl_cooStep_ones (x : List FV) (l : List (ℕ × ℕ × ℚ))
    (h : ∀ e ∈ l, x.getD e.2.1 (FV.val 0) = FV.val 1) (a : ℚ) :
    l.foldl (cooStep x) (FV.val a) = FV.val (a + (l.map (fun e => e.2.2)).sum) := by
  induction l generalizing a with
  | nil => simp
  | cons hd t ih =>
    rw [List.foldl_cons]
    have hhd : x.getD hd.2.1 (FV.val 0) = FV.val 1 := h hd (List.mem_cons_self hd t)
    have hstep : cooStep x (FV.val a) hd = FV.val (a + hd.2.2) := by
      rw [cooStep, hhd]; simp [FV.add, FV.mul]
    rw [hstep, ih (fun e he => h e (List.mem_cons_of_mem hd he))]
    simp; ring

/-- Sum of the stored weights of destination row `r` (the value of the
remapped coverage field at `r` when the source indicator is all ones). -/
def rowSumQ (w : CooMatrix) (r : ℕ) : ℚ :=
  ((w.entries.filter (fun e => e.1 == r)).map (fun e => e.2.2)).sum

lemma cooRow_ones (w : CooMatrix) (x : List FV) (r : ℕ)
    (h : ∀ e ∈ w.entries, x.getD e.2.1 (FV.val 0) = FV.val 1) :
    cooRow w x r = FV.val (rowSumQ w r) := by
  rw [cooRow_eq_foldl, foldl_cooStep_ones]
  · rw [rowSumQ, zero_add]
  · exact fun e he => h e (List.mem_of_mem_filter he)

lemma cooRow_nan_of_entry (w : CooMatrix) (x : List FV) (r c : ℕ) (s : ℚ)
    (he : (r, c, s) ∈ w.entries) (hx : x.getD c (FV.val 0) = FV.nan) :
    cooRow w x r = FV.nan := by
  rw [cooRow_eq_foldl]
  refine foldl_cooStep_absorb x _ (r, c, s) ?_ hx _
  exact List.mem_filter.mpr ⟨he, by simp⟩

/-! ### Structural lemmas about `esmf_apply_weights` -/

lemma esmf_apply_weights_ok (w : CooMatrix) (a : NDArray) (si so : ℕ × ℕ)
    (hc : a.c_contig = true)
    (hsh : a.shape.drop (a.shape.length - 2) = [si.1, si.2])
    (hcols : si.1 * si.2 = w.cols)
    (hrows : so.1 * so.2 = w.rows) :
    esmf_apply_weights w a si so
      = .ok ⟨(a.shape.take (a.shape.length - 2)) ++ [so.1, so.2],
             cooApplyBatched w a.data (si.1 * si.2)
               (a.shape.take (a.shape.length - 2)).prod,
             true⟩ := by
  simp [esmf_apply_weights, hc, hsh, hcols, hrows]

lemma esmf_apply_weights_error_shape (w : CooMatrix) (a : NDArray) (si so : ℕ × ℕ)
    (hc : a.c_contig = true)
    (hsh : a.shape.drop (a.shape.length - 2) ≠ [si.1, si.2]) :
    esmf_apply_weights w a si so = .error shapeHorizMsg := by
  simp [esmf_apply_weights, hc, hsh]

lemma esmf_apply_weights_error_cols (w : CooMatrix) (a : NDArray) (si so : ℕ × ℕ)
    (hc : a.c_contig = true)
    (hsh : a.shape.drop (a.shape.length - 2) = [si.1, si.2])
    (hcols : si.1 * si.2 ≠ w.cols) :
    esmf_apply_weights w a si so = .error colsMsg := by
  simp [esmf_apply_weights, hc, hsh, hcols]

lemma esmf_apply_weights_error_rows (w : CooMatrix) (a : NDArray) (si so : ℕ × ℕ)
    (hc : a.c_contig = true)
    (hsh : a.shape.drop (a.shape.length - 2) = [si.1, si.2])
    (hcols : si.1 * si.2 = w.cols)
    (hrows : so.1 * so.2 ≠ w.rows) :
    esmf_apply_weights w a si so = .error rowsMsg := by
  simp [esmf_apply_weights, hc, hsh, hcols, hrows]

lemma esmf_apply_weights_error_contig (w : CooMatrix) (a : NDArray)
    (si so : ℕ × ℕ) (hc : a.c_contig = false) :
    esmf_apply_weights w a si so = .error nameErrMsg := by
  simp [esmf_apply_weights, hc]

/-- Success of `esmf_apply_weights` depends only on the contiguity flag,
the shape and the operator dimensions, never on the data values. -/
lemma esmf_apply_weights_isOk_iff (w : CooMatrix) (a : NDArray) (si so : ℕ × ℕ) :
    (∃ out, esmf_apply_weights w a si so = .ok out)
      ↔ (a.c_contig = true ∧ a.shape.drop (a.shape.length - 2) = [si.1, si.2]
          ∧ si.1 * si.2 = w.cols ∧ so.1 * so.2 = w.rows) := by
  constructor
  · rintro ⟨out, hout⟩
    by_cases hc : a.c_contig = true
    · by_cases hsh : a.shape.drop (a.shape.length - 2) = [si.1, si.2]
      · by_cases hcols : si.1 * si.2 = w.cols
        · by_cases hrows : so.1 * so.2 = w.rows
          · exact ⟨hc, hsh, hcols, hrows⟩
          · rw [esmf_apply_weights_error_rows w a si so hc hsh hcols hrows] at hout
            cases hout
        · rw [esmf_apply_weights_error_cols w a si so hc hsh hcols] at hout
          cases hout
      · rw [esmf_apply_weights_error_shape w a si so hc hsh] at hout
        cases hout
    · have hc' : a.c_contig = false := by
        cases h : a.c_contig
        · rfl
        · exact absurd h hc
      rw [esmf_apply_weights_error_contig w a si so hc'] at hout
      cases hout
  · rintro ⟨hc, hsh, hcols, hrows⟩
    exact ⟨_, esmf_apply_weights_ok w a si so hc hsh hcols hrows⟩

/-! ### The identity weight operator -/

/-- The identity weight table for `n` cells: entry `(i, i, 1.0)` for each
`i < n`. -/
def idCoo (n : ℕ) : CooMatrix :=
  ⟨n, n, (List.range n).map (fun i => (i, i, (1 : ℚ)))⟩

lemma idCoo_filter (n r : ℕ) (hr : r < n) :
    (idCoo n).entries.filter (fun e => e.1 == r) = [(r, r, (1 : ℚ))] := by
  induction n with
  | zero => omega
  | succ n ih =>
    show ((List.range (n + 1)).map (fun i => (i, i, (1 : ℚ)))).filter _ = _
    rw [List.range_succ, List.map_append, List.filter_append]
    by_cases h : r < n
    · have hne : (n == r) = false := by simp; omega
      have : ih h = _ := rfl
      rw [show ((List.range n).map (fun i => (i, i, (1 : ℚ)))).filter
            (fun e => e.1 == r) = [(r, r, (1 : ℚ))] from ih h]
      simp [hne]
    · have hrn : r = n := by omega
      subst hrn
      have h1 : ((List.range r).map (fun i => (i, i, (1 : ℚ)))).filter
          (fun e => e.1 == r) = [] := by
        rw [List.filter_eq_nil_iff]
        rintro e he
        rcases List.mem_map.mp he with ⟨i, hi, rfl⟩
        have : i < r := List.mem_range.mp hi
        simp; omega
      rw [h1]
      simp

lemma cooRow_id (n : ℕ) (x : List FV) (r : ℕ) (hr : r < n) :
    cooRow (idCoo n) x r = x.getD r (FV.val 0) := by
  rw [cooRow_eq_foldl, idCoo_filter n r hr]
  show cooStep x (FV.val 0) (r, r, 1) = _
  rw [cooStep]
  exact FV.id_step _

lemma cooApplyBatched_id (n nb : ℕ) (x : List FV) (hlen : x.length = nb * n) :
    cooApplyBatched (idCoo n) x n nb = x := by
  unfold cooApplyBatched
  simp only [show (idCoo n).rows = n from rfl]
  have hpt : ∀ i ∈ List.range (nb * n),
      cooRow (idCoo n) ((x.drop ((i / n) * n)).take n) (i % n)
        = x.getD i (FV.val 0) := by
    intro i hi
    have hi' : i < nb * n := List.mem_range.mp hi
    have hn : 0 < n := by
      by_contra h
      have h0 : n = 0 := by omega
      subst h0
      simp at hi'
    have hmod : i % n < n := Nat.mod_lt i hn
    rw [cooRow_id n _ _ hmod]
    rw [List.getD_eq_getElem?_getD, List.getD_eq_getElem?_getD]
    rw [List.getElem?_take_of_lt hmod, List.getElem?_drop]
    congr 1
    rw [Nat.mul_comm (i / n) n, Nat.div_add_mod]
  rw [List.map_congr_left hpt, ← hlen]
  exact rangeMap_getD_self x (FV.val 0)

/-! ### Grid-center lemmas -/

lemma latCount (ny : ℕ) (hy : 0 < ny) :
    Int.toNat ⌈((90 : ℚ) - (-90 + ((180 : ℚ) / ny) / 2)) / ((180 : ℚ) / ny)⌉ = ny := by
  have hq : ((ny : ℚ)) ≠ 0 := Nat.cast_ne_zero.mpr (by omega)
  have harg : ((90 : ℚ) - (-90 + ((180 : ℚ) / ny) / 2)) / ((180 : ℚ) / ny)
      = (ny : ℚ) - 1 / 2 := by
    field_simp
    ring
  rw [harg]
  have h1 : ((ny : ℚ)) - 1 / 2 = (1 / 2 : ℚ) + ((ny - 1 : ℤ) : ℚ) := by
    push_cast
    ring
  rw [h1, Int.ceil_add_int]
  have h2 : ⌈(1 / 2 : ℚ)⌉ = 1 := by
    rw [Int.ceil_eq_iff] <;> norm_num
  rw [h2]
  omega

lemma lonCount (nx : ℕ) (lon0 : ℚ) (hx : 0 < nx) :
    Int.toNat ⌈((lon0 + 360) - (lon0 + ((360 : ℚ) / nx) / 2)) / ((360 : ℚ) / nx)⌉ = nx := by
  have hq : ((nx : ℚ)) ≠ 0 := Nat.cast_ne_zero.mpr (by omega)
  have harg : ((lon0 + 360) - (lon0 + ((360 : ℚ) / nx) / 2)) / ((360 : ℚ) / nx)
      = (nx : ℚ) - 1 / 2 := by
    field_simp
    ring
  rw [harg]
  have h1 : ((nx : ℚ)) - 1 / 2 = (1 / 2 : ℚ) + ((nx - 1 : ℤ) : ℚ) := by
    push_cast
    ring
  rw [h1, Int.ceil_add_int]
  have h2 : ⌈(1 / 2 : ℚ)⌉ = 1 := by
    rw [Int.ceil_eq_iff] <;> norm_num
  rw [h2]
  omega

lemma latCenters_length (ny : ℕ) (hy : 0 < ny) : (latCenters ny).length = ny := by
  unfold latCenters np_arange
  simp only [List.length_map, List.length_range]
  exact latCount ny hy

lemma lonCenters_length (nx : ℕ) (lon0 : ℚ) (hx : 0 < nx) :
    (lonCenters nx lon0).length = nx := by
  unfold lonCenters np_arange
  simp only [List.length_map, List.length_range]
  exact lonCount nx lon0 hx

lemma latCenters_getD (ny i : ℕ) (d : ℚ) (hy : 0 < ny) (hi : i < ny) :
    (latCenters ny).getD i d = -90 + ((180 : ℚ) / ny) / 2 + i * ((180 : ℚ) / ny) := by
  unfold latCenters np_arange
  rw [rangeMap_getD _ _ _ _ (by rw [latCount ny hy]; exact hi)]

lemma lonCenters_getD (nx i : ℕ) (lon0 : ℚ) (d : ℚ) (hx : 0 < nx) (hi : i < nx) :
    (lonCenters nx lon0).getD i d
      = lon0 + ((360 : ℚ) / nx) / 2 + i * ((360 : ℚ) / nx) := by
  unfold lonCenters np_arange
  rw [rangeMap_getD _ _ _ _ (by rw [lonCount nx lon0 hx]; exact hi)]

lemma latCenters_lt (ny : ℕ) (hy : 0 < ny) : ∀ q ∈ latCenters ny, q < 90 := by
  intro q hq
  unfold latCenters np_arange at hq
  rcases List.mem_map.mp hq with ⟨k, hk, rfl⟩
  have hkn : k < ny := by
    have := List.mem_range.mp hk
    rwa [latCount ny hy] at this
  have hq0 : ((ny : ℚ)) ≠ 0 := Nat.cast_ne_zero.mpr (by omega)
  have hd : (0 : ℚ) < (180 : ℚ) / ny := by positivity
  have hnd : ((ny : ℚ)) * ((180 : ℚ) / ny) = 180 := by field_simp
  have hk' : ((k : ℚ)) ≤ (ny : ℚ) - 1 := by
    have h1 : (k : ℚ) < (ny : ℚ) := by exact_mod_cast hkn
    have h2 : ((k : ℚ)) + 1 ≤ (ny : ℚ) := by
      have := Nat.succ_le_of_lt hkn
      exact_mod_cast this
    linarith
  have hkd : ((k : ℚ)) * ((180 : ℚ) / ny) ≤ ((ny : ℚ) - 1) * ((180 : ℚ) / ny) :=
    mul_le_mul_of_nonneg_right hk' (le_of_lt hd)
  nlinarith

/-! ### Cell-area lemmas -/

/-- The sine of the `i`-th latitude grid line (`-90 + i * dy` degrees)
converted to radians; the telescoping term of the area sum. -/
noncomputable def sinLatR (ny : ℕ) (i : ℕ) : ℝ :=
  Real.sin ((-90 + (i : ℝ) * (180 / (ny : ℝ))) * Real.pi / 180)

lemma cellArea_eq (nx ny : ℕ) (lon0 : ℚ) (i j : ℕ) (hy : 0 < ny) (hi : i < ny) :
    cellArea nx ny lon0 i j
      = (sinLatR ny (i + 1) - sinLatR ny i) * ((360 / (nx : ℝ)) * Real.pi / 180) := by
  simp only [cellArea, sinLatR]
  rw [latCenters_getD ny i 0 hy hi]
  have harg1 : ((( -90 + ((180 : ℚ) / ny) / 2 + i * ((180 : ℚ) / ny)
        + ((180 : ℚ) / ny) / 2 : ℚ)) : ℝ) * Real.pi / 180
      = (-90 + ((i : ℝ) + 1) * (180 / (ny : ℝ))) * Real.pi / 180 := by
    push_cast
    ring
  have harg2 : ((( -90 + ((180 : ℚ) / ny) / 2 + i * ((180 : ℚ) / ny)
        - ((180 : ℚ) / ny) / 2 : ℚ)) : ℝ) * Real.pi / 180
      = (-90 + (i : ℝ) * (180 / (ny : ℝ))) * Real.pi / 180 := by
    push_cast
    ring
  rw [harg1, harg2]
  have hcast : ((i : ℝ)) + 1 = (((i + 1 : ℕ)) : ℝ) := by push_cast; ring
  rw [hcast]
  congr 1
  push_cast
  ring

lemma areaSum_eq (nx ny : ℕ) (lon0 : ℚ) (hx : 0 < nx) (hy : 0 < ny) :
    areaSum nx ny lon0 = 4 * Real.pi := by
  have hnx : ((nx : ℝ)) ≠ 0 := Nat.cast_ne_zero.mpr (by omega)
  have hny : ((ny : ℝ)) ≠ 0 := Nat.cast_ne_zero.mpr (by omega)
  unfold areaSum
  have hstep : ∀ i ∈ Finset.range ny,
      (∑ j ∈ Finset.range nx, cellArea nx ny lon0 i j)
        = ((nx : ℝ) * ((360 / (nx : ℝ)) * Real.pi / 180))
            * (sinLatR ny (i + 1) - sinLatR ny i) := by
    intro i hi
    rw [Finset.sum_congr rfl
      (fun j _ => cellArea_eq nx ny lon0 i j hy (Finset.mem_range.mp hi))]
    rw [Finset.sum_const, Finset.card_range, nsmul_eq_mul]
    ring
  rw [Finset.sum_congr rfl hstep, ← Finset.mul_sum, Finset.sum_range_sub (sinLatR ny)]
  have hF0 : sinLatR ny 0 = -1 := by
    unfold sinLatR
    have harg : (-90 + ((0 : ℕ) : ℝ) * (180 / (ny : ℝ))) * Real.pi / 180
        = -(Real.pi / 2) := by
      push_cast
      ring
    rw [harg, Real.sin_neg, Real.sin_pi_div_two]
  have hFn : sinLatR ny ny = 1 := by
    unfold sinLatR
    have harg : (-90 + ((ny : ℕ) : ℝ) * (180 / (ny : ℝ))) * Real.pi / 180
        = Real.pi / 2 := by
      field_simp
      ring
    rw [harg, Real.sin_pi_div_two]
  rw [hF0, hFn]
  field_simp
  ring

/-- The generation succeeds for every positive grid size, returning the
dataset of `gridDatasetOf`. -/
lemma latlon_to_scrip_ok (nx ny : ℕ) (lon0 : ℚ) (m : Option (List ℤ))
    (hx : 0 < nx) (hy : 0 < ny) :
    latlon_to_scrip nx ny lon0 m = .ok (gridDatasetOf nx ny lon0 m) := by
  unfold latlon_to_scrip
  rw [if_pos (areaSum_eq nx ny lon0 hx hy)]

/-! ### `regrid_dataarray` path lemmas -/

/-- The renormalized destination array produced by the `renormalize=True`
branch of `regrid_dataarray` before mask application: raw remap of the
zero-filled data, coverage remap of the indicator, NaN where coverage is
not strictly positive, divide elsewhere. -/
def renormOut (rg : Regridder) (da : NDArray) : NDArray :=
  let nb := (da.shape.take (da.shape.length - 2)).prod
  let k := rg.dims_src.1 * rg.dims_src.2
  let raw := cooApplyBatched rg.weights (zeroFilled da).data k nb
  let cov := cooApplyBatched rg.weights (onesLike da).data k nb
  let ones_dst := cov.map (fun v => if v.gt0 then v else FV.nan)
  ⟨(da.shape.take (da.shape.length - 2)) ++ [rg.dims_dst.1, rg.dims_dst.2],
   List.zipWith (fun c v => if FV.gt0 c then v else FV.nan) ones_dst
     (List.zipWith FV.div raw ones_dst),
   true⟩

lemma regrid_renorm_eq (rg : Regridder) (da : NDArray) (am : Bool) (s : ErrState)
    (hsh : da.shape.drop (da.shape.length - 2) = [rg.dims_src.1, rg.dims_src.2])
    (hcols : rg.dims_src.1 * rg.dims_src.2 = rg.weights.cols)
    (hrows : rg.dims_dst.1 * rg.dims_dst.2 = rg.weights.rows) :
    regrid_dataarray rg da true am s
      = (.ok (if am then applyMaskWhere rg (renormOut rg da) else renormOut rg da), s) := by
  unfold regrid_dataarray
  dsimp only
  simp only [eq_self_iff_true, if_true]
  rw [esmf_apply_weights_ok rg.weights (zeroFilled da) rg.dims_src rg.dims_dst
    rfl hsh hcols hrows]
  rw [esmf_apply_weights_ok rg.weights (onesLike da) rg.dims_src rg.dims_dst
    rfl hsh hcols hrows]
  rfl

lemma regrid_apply_mask_split (rg : Regridder) (da : NDArray) (ren : Bool)
    (s : ErrState) :
    regrid_dataarray rg da ren true s
      = ((regrid_dataarray rg da ren false s).1.map (applyMaskWhere rg),
         (regrid_dataarray rg da ren false s).2) := by
  unfold regrid_dataarray
  cases ren with
  | false =>
    cases h1 : esmf_apply_weights rg.weights da rg.dims_src rg.dims_dst with
    | error e => simp [h1, Except.map]
    | ok o => simp [h1, Except.map]
  | true =>
    cases h1 : esmf_apply_weights rg.weights (zeroFilled da)
        rg.dims_src rg.dims_dst with
    | error e => simp [h1, Except.map]
    | ok o =>
      cases h2 : esmf_apply_weights rg.weights (onesLike da)
          rg.dims_src rg.dims_dst with
      | error e => simp [h1, h2, Except.map]
      | ok o2 => simp [h1, h2, Except.map]

/-! ### Mask and transpose lemmas -/

lemma transpose2D_length (r c : ℕ) (xs : List ℤ) :
    (transpose2D r c xs).length = c * r := by
  simp [transpose2D]

lemma transpose2D_getD (r c : ℕ) (xs : List ℤ) (t : ℕ) (h : t < c * r) :
    (transpose2D r c xs).getD t 0 = xs.getD ((t % r) * c + t / r) 0 := by
  unfold transpose2D
  exact rangeMap_getD _ _ _ _ h

lemma transpose2D_involution (r c : ℕ) (xs : List ℤ) (h : xs.length = r * c) :
    transpose2D c r (transpose2D r c xs) = xs := by
  apply List.ext_getElem?
  intro t
  by_cases ht : t < r * c
  · have hc : 0 < c := by
      by_contra hc0
      have : c = 0 := by omega
      subst this
      simp at ht
    have hdiv : t / c < r := (Nat.div_lt_iff_lt_mul hc).mpr ht
    have hmod : t % c < c := Nat.mod_lt t hc
    have hout : t < r * c := ht
    have h1 : (transpose2D c r (transpose2D r c xs))[t]?
        = some ((transpose2D r c xs).getD ((t % c) * r + t / c) 0) := by
      unfold transpose2D
      exact rangeMap_getElem? _ _ _ ht
    have hu : (t % c) * r + t / c < c * r := by
      calc (t % c) * r + t / c < (t % c) * r + r := by omega
        _ = ((t % c) + 1) * r := by ring
        _ ≤ c * r := Nat.mul_le_mul_right r hmod
    have h2 : (transpose2D r c xs).getD ((t % c) * r + t / c) 0
        = xs.getD ((((t % c) * r + t / c) % r) * c + ((t % c) * r + t / c) / r) 0 :=
      transpose2D_getD r c xs _ hu
    have hmodr : ((t % c) * r + t / c) % r = t / c := by
      rw [Nat.mul_comm (t % c) r, Nat.mul_add_mod]
      exact Nat.mod_eq_of_lt hdiv
    have hdivr : ((t % c) * r + t / c) / r = t % c := by
      have hr : 0 < r := by
        by_contra hr0
        have : r = 0 := by omega
        subst this
        simp at ht
      rw [Nat.mul_comm (t % c) r, Nat.mul_add_div hr]
      rw [Nat.div_eq_of_lt hdiv]
      omega
    rw [h1, h2, hmodr, hdivr]
    have hidx : (t / c) * c + t % c = t := by
      rw [Nat.mul_comm (t / c) c]
      exact Nat.div_add_mod t c
    rw [hidx, getD_eq_getElem xs t 0 (by omega), List.getElem?_eq_getElem (by omega)]
  · have hlen1 : (transpose2D c r (transpose2D r c xs)).length = r * c := by
      rw [transpose2D_length]
    rw [List.getElem?_eq_none (by omega), List.getElem?_eq_none (by omega)]

/-- The working-orientation destination mask actually applied by
`regrid_dataarray`: `mask_dst.T`, i.e. the stored `grid_imask` in flat
`(ny, nx)` C-order. -/
lemma regridder_init_maskT (sd dd : ℕ × ℕ) (im : List ℤ) (wf : List (ℕ × ℕ × ℚ))
    (hlen : im.length = dd.2 * dd.1) :
    transpose2D (regridder_init sd dd im wf).dims_dst.2
      (regridder_init sd dd im wf).dims_dst.1
      (regridder_init sd dd im wf).mask_dst = im := by
  show transpose2D dd.1 dd.2 (transpose2D dd.2 dd.1 im) = im
  exact transpose2D_involution dd.2 dd.1 im hlen

lemma applyMaskWhere_getD (rg : Regridder) (a : NDArray) (i : ℕ)
    (h : i < a.data.length) :
    (applyMaskWhere rg a).data.getD i FV.nan
      = (if (transpose2D rg.dims_dst.2 rg.dims_dst.1 rg.mask_dst).getD
            (i % (rg.dims_dst.1 * rg.dims_dst.2)) 0 ≠ 0
         then a.data.getD i FV.nan else FV.nan) := by
  unfold applyMaskWhere
  exact rangeMap_getD _ _ _ _ h

/-! ### Claim theorems -/

/-- C10: the numeric error policy change (`np.seterr(invalid=ignore)`)
around the renormalization divide is active only inside the renormalize
block, and the prior policy is restored on every exit path of
`regrid_dataarray`, including error paths: the final error state always
equals the initial one. -/
theorem seterr_restored_on_all_paths (rg : Regridder) (da : NDArray)
    (ren am : Bool) (s : ErrState) :
    (regrid_dataarray rg da ren am s).2 = s := by
  unfold regrid_dataarray
  cases ren with
  | false =>
    cases h1 : esmf_apply_weights rg.weights da rg.dims_src rg.dims_dst with
    | error e => simp [h1]
    | ok o => simp [h1]
  | true =>
    cases h1 : esmf_apply_weights rg.weights (zeroFilled da)
        rg.dims_src rg.dims_dst with
    | error e => simp [h1]
    | ok o =>
      have hok : ∃ out, esmf_apply_weights rg.weights (zeroFilled da)
          rg.dims_src rg.dims_dst = .ok out := ⟨o, h1⟩
      rw [esmf_apply_weights_isOk_iff] at hok
      have hok2 : ∃ out, esmf_apply_weights rg.weights (onesLike da)
          rg.dims_src rg.dims_dst = .ok out := by
        rw [esmf_apply_weights_isOk_iff]
        exact hok
      obtain ⟨o2, h2⟩ := hok2
      simp [h1, h2]

/-- C5 (code bug in util.py): a non-C-contiguous input is meant to produce
a non-fatal performance warning, but the `warnings` module is never
imported in util.py, so `warnings.warn` on line 146 raises NameError and
the transform does not proceed — here on an input that succeeds when the
only change is the contiguity flag. -/
theorem noncontiguous_input_fatal_namerror :
    esmf_apply_weights ⟨4, 4, [(0, 0, 1), (1, 1, 1), (2, 2, 1), (3, 3, 1)]⟩
        ⟨[2, 2], [FV.val 1, FV.val 2, FV.val 3, FV.val 4], false⟩ (2, 2) (2, 2)
      = .error nameErrMsg
    ∧ (∃ out, esmf_apply_weights ⟨4, 4, [(0, 0, 1), (1, 1, 1), (2, 2, 1), (3, 3, 1)]⟩
        ⟨[2, 2], [FV.val 1, FV.val 2, FV.val 3, FV.val 4], true⟩ (2, 2) (2, 2)
      = .ok out) := by
  constructor
  · norm_num [esmf_apply_weights]
  · rw [esmf_apply_weights_isOk_iff]
    refine ⟨rfl, by norm_num, by norm_num, by norm_num⟩

/-- C4 (amended): for a C-contiguous input array, `esmf_apply_weights`
fails with the matching shape-mismatch assertion message, before any
computation, whenever the horizontal shape differs from `shape_in`, or
`shape_in` does not flatten to the weight column count, or `shape_out`
does not flatten to the weight row count. -/
theorem shape_mismatch_assertions (w : CooMatrix) (a : NDArray) (si so : ℕ × ℕ)
    (hc : a.c_contig = true) :
    (a.shape.drop (a.shape.length - 2) ≠ [si.1, si.2] →
        esmf_apply_weights w a si so = .error shapeHorizMsg)
    ∧ (a.shape.drop (a.shape.length - 2) = [si.1, si.2] → si.1 * si.2 ≠ w.cols →
        esmf_apply_weights w a si so = .error colsMsg)
    ∧ (a.shape.drop (a.shape.length - 2) = [si.1, si.2] → si.1 * si.2 = w.cols →
        so.1 * so.2 ≠ w.rows → esmf_apply_weights w a si so = .error rowsMsg) :=
  ⟨fun hsh => esmf_apply_weights_error_shape w a si so hc hsh,
   fun hsh hcols => esmf_apply_weights_error_cols w a si so hc hsh hcols,
   fun hsh hcols hrows => esmf_apply_weights_error_rows w a si so hc hsh hcols hrows⟩

/-- C4 counterexample to the claim as stated: an input that violates the
horizontal-shape precondition but is not C-contiguous raises NameError
(from the unimported `warnings` module), not a shape-mismatch error, so
the shape check is not reached. -/
theorem shape_mismatch_preempted_counterexample :
    ((⟨[3], [FV.val 0, FV.val 0, FV.val 0], false⟩ : NDArray).shape.drop
        ((⟨[3], [FV.val 0, FV.val 0, FV.val 0], false⟩ : NDArray).shape.length - 2)
      ≠ [(1 : ℕ), 1])
    ∧ esmf_apply_weights ⟨1, 1, [(0, 0, 1)]⟩
        ⟨[3], [FV.val 0, FV.val 0, FV.val 0], false⟩ (1, 1) (1, 1)
      = .error nameErrMsg
    ∧ nameErrMsg ≠ shapeHorizMsg ∧ nameErrMsg ≠ colsMsg ∧ nameErrMsg ≠ rowsMsg := by
  refine ⟨by decide, by norm_num [esmf_apply_weights], ?_, ?_, ?_⟩
  · simp [nameErrMsg, shapeHorizMsg]
  · simp [nameErrMsg, colsMsg]
  · simp [nameErrMsg, rowsMsg]

/-- C8: with `apply_mask=True` the transform equals the `apply_mask=False`
transform followed by the mask step (so masked-off cells are overwritten
regardless of computed value and nothing else changes), and the mask step
sets a destination cell to NaN exactly when its `grid_imask` value is 0,
leaving cells with nonzero mask untouched. -/
theorem apply_mask_behavior (sd dd : ℕ × ℕ) (im : List ℤ) (wf : List (ℕ × ℕ × ℚ))
    (da : NDArray) (ren : Bool) (s : ErrState) (a : NDArray) (i : ℕ)
    (hlen : im.length = dd.2 * dd.1) (hi : i < a.data.length) :
    (regrid_dataarray (regridder_init sd dd im wf) da ren true s
        = ((regrid_dataarray (regridder_init sd dd im wf) da ren false s).1.map
             (applyMaskWhere (regridder_init sd dd im wf)),
           (regrid_dataarray (regridder_init sd dd im wf) da ren false s).2))
    ∧ ((applyMaskWhere (regridder_init sd dd im wf) a).data.getD i FV.nan
        = if im.getD (i % (dd.2 * dd.1)) 0 ≠ 0
          then a.data.getD i FV.nan else FV.nan) := by
  constructor
  · exact regrid_apply_mask_split (regridder_init sd dd im wf) da ren s
  · rw [applyMaskWhere_getD (regridder_init sd dd im wf) a i hi,
        regridder_init_maskT sd dd im wf hlen]
    rfl

/-- Witness for C8 at a concrete 2×2 grid: the cell with `grid_imask = 0`
(flat index 1) is NaN after masking, and masking commutes as stated. -/
theorem apply_mask_behavior_witness :
    ((4 : ℕ) = 2 * 2 ∧ (1 : ℕ) < 4)
    ∧ (regrid_dataarray (regridder_init (2, 2) (2, 2) [1, 0, 1, 1] [])
          ⟨[2, 2], [FV.val 1, FV.val 2, FV.val 3, FV.val 4], true⟩ false true
          ⟨"warn", "warn", "warn", "warn"⟩
        = ((regrid_dataarray (regridder_init (2, 2) (2, 2) [1, 0, 1, 1] [])
              ⟨[2, 2], [FV.val 1, FV.val 2, FV.val 3, FV.val 4], true⟩ false false
              ⟨"warn", "warn", "warn", "warn"⟩).1.map
             (applyMaskWhere (regridder_init (2, 2) (2, 2) [1, 0, 1, 1] [])),
           (regrid_dataarray (regridder_init (2, 2) (2, 2) [1, 0, 1, 1] [])
              ⟨[2, 2], [FV.val 1, FV.val 2, FV.val 3, FV.val 4], true⟩ false false
              ⟨"warn", "warn", "warn", "warn"⟩).2))
    ∧ ((applyMaskWhere (regridder_init (2, 2) (2, 2) [1, 0, 1, 1] [])
          ⟨[2, 2], [FV.val 5, FV.val 6, FV.val 7, FV.val 8], true⟩).data.getD 1 FV.nan
        = if ([1, 0, 1, 1] : List ℤ).getD (1 % (2 * 2)) 0 ≠ 0
          then (⟨[2, 2], [FV.val 5, FV.val 6, FV.val 7, FV.val 8],
                  true⟩ : NDArray).data.getD 1 FV.nan
          else FV.nan) := by
  refine ⟨⟨by decide, by decide⟩, ?_, ?_⟩
  · exact (apply_mask_behavior (2, 2) (2, 2) [1, 0, 1, 1] []
      ⟨[2, 2], [FV.val 1, FV.val 2, FV.val 3, FV.val 4], true⟩ false
      ⟨"warn", "warn", "warn", "warn"⟩
      ⟨[2, 2], [FV.val 5, FV.val 6, FV.val 7, FV.val 8], true⟩ 1
      (by decide) (by decide)).1
  · exact (apply_mask_behavior (2, 2) (2, 2) [1, 0, 1, 1] []
      ⟨[2, 2], [FV.val 1, FV.val 2, FV.val 3, FV.val 4], true⟩ false
      ⟨"warn", "warn", "warn", "warn"⟩
      ⟨[2, 2], [FV.val 5, FV.val 6, FV.val 7, FV.val 8], true⟩ 1
      (by decide) (by decide)).2

/-- Witness for C4 (amended) at concrete inputs: a C-contiguous 1-D input
triggers the horizontal-shape assertion message. -/
theorem shape_mismatch_assertions_witness :
    ((⟨[3], [FV.val 0, FV.val 0, FV.val 0], true⟩ : NDArray).c_contig = true)
    ∧ (((⟨[3], [FV.val 0, FV.val 0, FV.val 0], true⟩ : NDArray).shape.drop
          ((⟨[3], [FV.val 0, FV.val 0, FV.val 0], true⟩ : NDArray).shape.length - 2)
        ≠ [(1 : ℕ), 1]) →
        esmf_apply_weights ⟨1, 1, [(0, 0, 1)]⟩
          ⟨[3], [FV.val 0, FV.val 0, FV.val 0], true⟩ (1, 1) (1, 1)
          = .error shapeHorizMsg) := by
  refine ⟨by decide, ?_⟩
  exact (shape_mismatch_assertions ⟨1, 1, [(0, 0, 1)]⟩
    ⟨[3], [FV.val 0, FV.val 0, FV.val 0], true⟩ (1, 1) (1, 1) rfl).1

/-- C6: `esmf_apply_weights` never fails because of non-finite data values
(success depends only on shape, contiguity and operator dimensions), and a
NaN at a source cell read by any stored entry — including an entry with
weight exactly 0 — makes the corresponding destination cell NaN. -/
theorem nonfinite_values_propagate (w : CooMatrix) (a : NDArray) (si so : ℕ × ℕ)
    (hc : a.c_contig = true)
    (hsh : a.shape.drop (a.shape.length - 2) = [si.1, si.2])
    (hcols : si.1 * si.2 = w.cols)
    (hrows : so.1 * so.2 = w.rows) :
    (∃ out, esmf_apply_weights w a si so = .ok out)
    ∧ ∀ out, esmf_apply_weights w a si so = .ok out →
        ∀ r c : ℕ, ∀ sv : ℚ, (r, c, sv) ∈ w.entries → r < w.rows →
          ∀ b : ℕ, b < (a.shape.take (a.shape.length - 2)).prod →
            c < si.1 * si.2 →
            a.data.getD (b * (si.1 * si.2) + c) (FV.val 0) = FV.nan →
            out.data.getD (b * w.rows + r) FV.nan = FV.nan := by
  have hok := esmf_apply_weights_ok w a si so hc hsh hcols hrows
  refine ⟨⟨_, hok⟩, ?_⟩
  intro out hout r c sv he hr b hb hck hnan
  have heq := hout.symm.trans hok
  injection heq with heq
  subst heq
  have hrowspos : 0 < w.rows := by omega
  have hidx : b * w.rows + r < (a.shape.take (a.shape.length - 2)).prod * w.rows := by
    calc b * w.rows + r < b * w.rows + w.rows := by omega
      _ = (b + 1) * w.rows := by ring
      _ ≤ (a.shape.take (a.shape.length - 2)).prod * w.rows :=
          Nat.mul_le_mul_right _ (by omega)
  show (cooApplyBatched w a.data (si.1 * si.2)
      (a.shape.take (a.shape.length - 2)).prod).getD (b * w.rows + r) FV.nan = FV.nan
  rw [cooApplyBatched_getD w a.data (si.1 * si.2)
    (a.shape.take (a.shape.length - 2)).prod _ _ hidx]
  have hdiv : (b * w.rows + r) / w.rows = b := by
    rw [Nat.mul_comm b w.rows, Nat.mul_add_div hrowspos, Nat.div_eq_of_lt hr]
    omega
  have hmod : (b * w.rows + r) % w.rows = r := by
    rw [Nat.mul_comm b w.rows, Nat.mul_add_mod]
    exact Nat.mod_eq_of_lt hr
  rw [hdiv, hmod]
  have hslice : ((a.data.drop (b * (si.1 * si.2))).take (si.1 * si.2)).getD c (FV.val 0)
      = a.data.getD (b * (si.1 * si.2) + c) (FV.val 0) := by
    rw [List.getD_eq_getElem?_getD, List.getD_eq_getElem?_getD,
        List.getElem?_take_of_lt hck, List.getElem?_drop]
  exact cooRow_nan_of_entry w _ r c sv he (hslice.trans hnan)

/-- Witness for C6: a single stored entry with weight `0.0` and a NaN
source value; the operation succeeds and the destination cell is NaN
(`0 * NaN = NaN`). -/
theorem nonfinite_values_propagate_witness :
    ((⟨[1, 1], [FV.nan], true⟩ : NDArray).c_contig = true
      ∧ ((0 : ℕ), (0 : ℕ), (0 : ℚ)) ∈ (⟨1, 1, [(0, 0, 0)]⟩ : CooMatrix).entries
      ∧ (⟨[1, 1], [FV.nan], true⟩ : NDArray).data.getD 0 (FV.val 0) = FV.nan)
    ∧ (∃ out, esmf_apply_weights ⟨1, 1, [(0, 0, 0)]⟩ ⟨[1, 1], [FV.nan], true⟩
        (1, 1) (1, 1) = .ok out)
    ∧ (∀ out, esmf_apply_weights ⟨1, 1, [(0, 0, 0)]⟩ ⟨[1, 1], [FV.nan], true⟩
        (1, 1) (1, 1) = .ok out →
        out.data.getD 0 FV.nan = FV.nan) := by
  have h := nonfinite_values_propagate ⟨1, 1, [(0, 0, 0)]⟩ ⟨[1, 1], [FV.nan], true⟩
    (1, 1) (1, 1) rfl (by decide) (by decide) (by decide)
  refine ⟨⟨by decide, by decide, by decide⟩, h.1, ?_⟩
  intro out hout
  have := h.2 out hout 0 0 0 (by decide) (by decide) 0 (by decide) (by decide) (by decide)
  simpa using this

/-- C1: for the renormalized transform (`renormalize=True`,
`apply_mask=False`), the call succeeds (no error for any cell), a
destination cell whose remapped coverage is exactly zero is NaN in the
output, and a destination cell with strictly positive coverage `q` holds
the raw remapped value divided by `q`. -/
theorem renormalize_coverage_behavior (rg : Regridder) (da : NDArray)
    (s : ErrState) (idx : ℕ)
    (hsh : da.shape.drop (da.shape.length - 2) = [rg.dims_src.1, rg.dims_src.2])
    (hcols : rg.dims_src.1 * rg.dims_src.2 = rg.weights.cols)
    (hrows : rg.dims_dst.1 * rg.dims_dst.2 = rg.weights.rows)
    (hidx : idx < (da.shape.take (da.shape.length - 2)).prod * rg.weights.rows) :
    ∃ out, (regrid_dataarray rg da true false s).1 = .ok out
      ∧ (((cooApplyBatched rg.weights (onesLike da).data
            (rg.dims_src.1 * rg.dims_src.2)
            ((da.shape.take (da.shape.length - 2)).prod)).getD idx FV.nan
          = FV.val 0) → out.data.getD idx FV.nan = FV.nan)
      ∧ (∀ q : ℚ, 0 < q →
          (cooApplyBatched rg.weights (onesLike da).data
            (rg.dims_src.1 * rg.dims_src.2)
            ((da.shape.take (da.shape.length - 2)).prod)).getD idx FV.nan
            = FV.val q →
          out.data.getD idx FV.nan
            = ((cooApplyBatched rg.weights (zeroFilled da).data
                 (rg.dims_src.1 * rg.dims_src.2)
                 ((da.shape.take (da.shape.length - 2)).prod)).getD idx FV.nan).div
                (FV.val q)) := by
  refine ⟨renormOut rg da, ?_, ?_, ?_⟩
  · rw [regrid_renorm_eq rg da false s hsh hcols hrows]
    rfl
  · intro hz
    simp only [renormOut]
    rw [zipWith_getD _ _ _ _ _ FV.nan FV.nan
        (by simp [cooApplyBatched_length]; omega)
        (by simp [List.length_zipWith, cooApplyBatched_length]; omega),
      map_getD _ _ _ _ FV.nan (by simp [cooApplyBatched_length]; omega),
      hz]
    simp [FV.gt0]
  · intro q hq hcov
    simp only [renormOut]
    rw [zipWith_getD _ _ _ _ _ FV.nan FV.nan
        (by simp [cooApplyBatched_length]; omega)
        (by simp [List.length_zipWith, cooApplyBatched_length]; omega),
      map_getD _ _ _ _ FV.nan (by simp [cooApplyBatched_length]; omega),
      hcov,
      zipWith_getD _ _ _ _ _ FV.nan FV.nan
        (by simp [cooApplyBatched_length]; omega)
        (by simp [List.length_map, cooApplyBatched_length]; omega),
      map_getD _ _ _ _ FV.nan (by simp [cooApplyBatched_length]; omega),
      hcov]
    have hgt : FV.gt0 (FV.val q) = true := by
      simp [FV.gt0]
      exact hq
    simp [hgt, List.getD_eq_getElem?_getD]

/-- Witness for C1 on a 2-cell destination grid whose second cell is
absent from the weight table: its coverage is exactly zero and the
renormalized output there is NaN, with no error raised. -/
theorem renormalize_coverage_behavior_witness :
    ((cooApplyBatched (regridder_init (1, 2) (1, 2) [1, 1] [(1, 1, 1)]).weights
        (onesLike ⟨[2, 1], [FV.val 3, FV.val 5], true⟩).data 2 1).getD 1 FV.nan
      = FV.val 0)
    ∧ (∃ out, (regrid_dataarray (regridder_init (1, 2) (1, 2) [1, 1] [(1, 1, 1)])
          ⟨[2, 1], [FV.val 3, FV.val 5], true⟩ true false
          ⟨"warn", "warn", "warn", "warn"⟩).1 = .ok out
        ∧ (((cooApplyBatched (regridder_init (1, 2) (1, 2) [1, 1] [(1, 1, 1)]).weights
              (onesLike ⟨[2, 1], [FV.val 3, FV.val 5], true⟩).data 2 1).getD 1 FV.nan
            = FV.val 0) → out.data.getD 1 FV.nan = FV.nan)) := by
  constructor
  · norm_num [cooApplyBatched, cooRow, regridder_init, onesLike, FV.isnan,
      FV.add, FV.mul, show List.range 2 = [0, 1] from rfl]
  · obtain ⟨out, h1, h2, h3⟩ := renormalize_coverage_behavior
      (regridder_init (1, 2) (1, 2) [1, 1] [(1, 1, 1)])
      ⟨[2, 1], [FV.val 3, FV.val 5], true⟩
      ⟨"warn", "warn", "warn", "warn"⟩ 1
      (by decide) (by decide) (by decide) (by decide)
    exact ⟨out, h1, h2⟩

/-- C7: with `renormalize=True`, full coverage (every destination row of
the weight operator has strictly positive stored-weight sum) and an
all-ones input field, every destination cell of the transform is exactly
1.0. -/
theorem full_coverage_ones_idempotent (rg : Regridder) (da : NDArray) (s : ErrState)
    (hsh : da.shape.drop (da.shape.length - 2) = [rg.dims_src.1, rg.dims_src.2])
    (hcols : rg.dims_src.1 * rg.dims_src.2 = rg.weights.cols)
    (hrows : rg.dims_dst.1 * rg.dims_dst.2 = rg.weights.rows)
    (hlen : da.data.length = da.shape.prod)
    (hones : ∀ v ∈ da.data, v = FV.val 1)
    (hbounds : ∀ e ∈ rg.weights.entries, e.2.1 < rg.weights.cols)
    (hcov : ∀ r, r < rg.weights.rows → 0 < rowSumQ rg.weights r) :
    ∃ out, (regrid_dataarray rg da true false s).1 = .ok out
      ∧ out.data.length
          = (da.shape.take (da.shape.length - 2)).prod * rg.weights.rows
      ∧ ∀ i, i < (da.shape.take (da.shape.length - 2)).prod * rg.weights.rows →
          out.data.getD i FV.nan = FV.val 1 := by
  have hzf : (zeroFilled da).data = da.data := by
    show da.data.map _ = da.data
    rw [List.map_congr_left (g := id) (fun v hv => by rw [hones v hv]; rfl)]
    exact List.map_id da.data
  have honesl : (onesLike da).data = da.data := by
    show da.data.map _ = da.data
    rw [List.map_congr_left (g := id) (fun v hv => by rw [hones v hv]; rfl)]
    exact List.map_id da.data
  have hshape : da.shape.take (da.shape.length - 2)
      ++ [rg.dims_src.1, rg.dims_src.2] = da.shape := by
    conv_rhs => rw [← List.take_append_drop (da.shape.length - 2) da.shape]
    rw [hsh]
  have hlen' : da.data.length
      = (da.shape.take (da.shape.length - 2)).prod
        * (rg.dims_src.1 * rg.dims_src.2) := by
    rw [hlen, ← hshape, List.prod_append]
    simp [List.prod_cons]
  refine ⟨renormOut rg da, ?_, ?_, ?_⟩
  · rw [regrid_renorm_eq rg da false s hsh hcols hrows]
    rfl
  · simp [renormOut, List.length_zipWith, cooApplyBatched_length]
  · intro i hi
    have hrowspos : 0 < rg.weights.rows := by
      by_contra h0
      have : rg.weights.rows = 0 := by omega
      rw [this] at hi
      simp at hi
    have hA : (cooApplyBatched rg.weights da.data (rg.dims_src.1 * rg.dims_src.2)
          (da.shape.take (da.shape.length - 2)).prod).getD i FV.nan
        = FV.val (rowSumQ rg.weights (i % rg.weights.rows)) := by
      rw [cooApplyBatched_getD _ _ _ _ _ _ hi]
      apply cooRow_ones
      intro e he
      have hc : e.2.1 < rg.dims_src.1 * rg.dims_src.2 := by
        rw [hcols]
        exact hbounds e he
      have hdivlt : i / rg.weights.rows < (da.shape.take (da.shape.length - 2)).prod :=
        (Nat.div_lt_iff_lt_mul hrowspos).mpr hi
      have hib : (i / rg.weights.rows) * (rg.dims_src.1 * rg.dims_src.2) + e.2.1
          < da.data.length := by
        rw [hlen']
        calc (i / rg.weights.rows) * (rg.dims_src.1 * rg.dims_src.2) + e.2.1
            < (i / rg.weights.rows) * (rg.dims_src.1 * rg.dims_src.2)
              + (rg.dims_src.1 * rg.dims_src.2) := by omega
          _ = (i / rg.weights.rows + 1) * (rg.dims_src.1 * rg.dims_src.2) := by ring
          _ ≤ (da.shape.take (da.shape.length - 2)).prod
              * (rg.dims_src.1 * rg.dims_src.2) :=
            Nat.mul_le_mul_right _ (by omega)
      rw [List.getD_eq_getElem?_getD, List.getElem?_take_of_lt hc, List.getElem?_drop,
        List.getElem?_eq_getElem hib]
      show da.data[_] = FV.val 1
      exact hones _ (List.getElem_mem hib)
    have hq := hcov (i % rg.weights.rows) (Nat.mod_lt i hrowspos)
    have hgt : FV.gt0 (FV.val (rowSumQ rg.weights (i % rg.weights.rows))) = true := by
      simp [FV.gt0]
      exact hq
    simp only [renormOut, hzf, honesl]
    rw [zipWith_getD _ _ _ _ _ FV.nan FV.nan
        (by simp [cooApplyBatched_length]; omega)
        (by simp [List.length_zipWith, cooApplyBatched_length]; omega),
      map_getD _ _ _ _ FV.nan (by simp [cooApplyBatched_length]; omega),
      zipWith_getD _ _ _ _ _ FV.nan FV.nan
        (by simp [cooApplyBatched_length]; omega)
        (by simp [List.length_map, cooApplyBatched_length]; omega),
      map_getD _ _ _ _ FV.nan (by simp [cooApplyBatched_length]; omega),
      hA, hgt]
    simp [FV.div, hgt, ne_of_gt hq, div_self (ne_of_gt hq)]

/-- Witness for C7: the identity weight operator on a 2×2 grid has full
coverage and maps the all-ones field to all-ones. -/
theorem full_coverage_ones_idempotent_witness :
    ((∀ v ∈ ([FV.val 1, FV.val 1, FV.val 1, FV.val 1] : List FV), v = FV.val 1)
      ∧ (∀ r, r < (regridder_init (2, 2) (2, 2) [1, 1, 1, 1]
            [(1, 1, 1), (2, 2, 1), (3, 3, 1), (4, 4, 1)]).weights.rows →
          0 < rowSumQ (regridder_init (2, 2) (2, 2) [1, 1, 1, 1]
            [(1, 1, 1), (2, 2, 1), (3, 3, 1), (4, 4, 1)]).weights r))
    ∧ ∃ out, (regrid_dataarray
          (regridder_init (2, 2) (2, 2) [1, 1, 1, 1]
            [(1, 1, 1), (2, 2, 1), (3, 3, 1), (4, 4, 1)])
          ⟨[2, 2], [FV.val 1, FV.val 1, FV.val 1, FV.val 1], true⟩ true false
          ⟨"warn", "warn", "warn", "warn"⟩).1 = .ok out
        ∧ out.data.length = 1 * 4
        ∧ ∀ i, i < 1 * 4 → out.data.getD i FV.nan = FV.val 1 := by
  have hcov : ∀ r, r < (regridder_init (2, 2) (2, 2) [1, 1, 1, 1]
      [(1, 1, 1), (2, 2, 1), (3, 3, 1), (4, 4, 1)]).weights.rows →
      0 < rowSumQ (regridder_init (2, 2) (2, 2) [1, 1, 1, 1]
        [(1, 1, 1), (2, 2, 1), (3, 3, 1), (4, 4, 1)]).weights r := by
    intro r hr
    have hr4 : r < 4 := hr
    interval_cases r <;> norm_num [rowSumQ, regridder_init]
  have hones : ∀ v ∈ ([FV.val 1, FV.val 1, FV.val 1, FV.val 1] : List FV),
      v = FV.val 1 := by
    intro v hv
    simp at hv
    exact hv
  refine ⟨⟨hones, hcov⟩, ?_⟩
  exact full_coverage_ones_idempotent
    (regridder_init (2, 2) (2, 2) [1, 1, 1, 1]
      [(1, 1, 1), (2, 2, 1), (3, 3, 1), (4, 4, 1)])
    ⟨[2, 2], [FV.val 1, FV.val 1, FV.val 1, FV.val 1], true⟩
    ⟨"warn", "warn", "warn", "warn"⟩
    (by decide) (by decide) (by decide) (by decide) hones (by decide) hcov

/-- C2: applying an identity weight operator (entry `(i, i, 1.0)` for each
flattened cell, matching grid sizes) returns the input data unchanged for
any input array, extra leading dimensions included; and end to end, a
regridder built from two identical 2×2 grids and an identity weight table
transforms the field `[[1,2],[3,4]]` to itself (all-ones mask, default
`renormalize=True` and `apply_mask=True`). -/
theorem identity_weights_roundtrip (n : ℕ) (a : NDArray) (si : ℕ × ℕ)
    (s0 : ErrState)
    (hc : a.c_contig = true)
    (hsh : a.shape.drop (a.shape.length - 2) = [si.1, si.2])
    (hn : si.1 * si.2 = n)
    (hlen : a.data.length = a.shape.prod) :
    esmf_apply_weights (idCoo n) a si si = .ok ⟨a.shape, a.data, true⟩
    ∧ regrid_dataarray
        (regridder_init (2, 2) (2, 2) [1, 1, 1, 1]
          [(1, 1, 1), (2, 2, 1), (3, 3, 1), (4, 4, 1)])
        ⟨[2, 2], [FV.val 1, FV.val 2, FV.val 3, FV.val 4], true⟩ true true s0
      = (.ok ⟨[2, 2], [FV.val 1, FV.val 2, FV.val 3, FV.val 4], true⟩, s0) := by
  constructor
  · rw [esmf_apply_weights_ok (idCoo n) a si si hc hsh hn hn]
    have hshape : a.shape.take (a.shape.length - 2) ++ [si.1, si.2] = a.shape := by
      conv_rhs => rw [← List.take_append_drop (a.shape.length - 2) a.shape]
      rw [hsh]
    have hdata : cooApplyBatched (idCoo n) a.data (si.1 * si.2)
        (a.shape.take (a.shape.length - 2)).prod = a.data := by
      rw [hn]
      apply cooApplyBatched_id
      have hp : ([si.1, si.2] : List ℕ).prod = n := by
        rw [show ([si.1, si.2] : List ℕ).prod = si.1 * si.2 by
          simp [List.prod_cons]]
        exact hn
      rw [hlen]
      conv_lhs => rw [← hshape]
      rw [List.prod_append, hp]
    rw [hshape, hdata]
  · have hro0 : renormOut (regridder_init (2, 2) (2, 2) [1, 1, 1, 1]
          [(1, 1, 1), (2, 2, 1), (3, 3, 1), (4, 4, 1)])
          ⟨[2, 2], [FV.val 1, FV.val 2, FV.val 3, FV.val 4], true⟩
        = ⟨[2, 2],
           List.zipWith (fun c v => if FV.gt0 c then v else FV.nan)
             (List.map (fun v => if FV.gt0 v then v else FV.nan)
               (cooApplyBatched (idCoo 4)
                 [FV.val 1, FV.val 1, FV.val 1, FV.val 1] 4 1))
             (List.zipWith FV.div
               (cooApplyBatched (idCoo 4)
                 [FV.val 1, FV.val 2, FV.val 3, FV.val 4] 4 1)
               (List.map (fun v => if FV.gt0 v then v else FV.nan)
                 (cooApplyBatched (idCoo 4)
                   [FV.val 1, FV.val 1, FV.val 1, FV.val 1] 4 1))),
           true⟩ := rfl
    rw [cooApplyBatched_id 4 1 [FV.val 1, FV.val 1, FV.val 1, FV.val 1] rfl,
        cooApplyBatched_id 4 1 [FV.val 1, FV.val 2, FV.val 3, FV.val 4] rfl] at hro0
    have hgt1 : FV.gt0 (FV.val 1) = true := by norm_num [FV.gt0]
    have hdiv1 : ∀ x : ℚ, FV.div (FV.val x) (FV.val 1) = FV.val x := fun x => by
      norm_num [FV.div]
    simp only [List.map_cons, List.map_nil, List.zipWith_cons_cons,
      List.zipWith_nil_right, List.zipWith_nil_left, hgt1, eq_self_iff_true,
      if_true, hdiv1] at hro0
    rw [regrid_renorm_eq _ _ true s0 (by decide) (by decide) (by decide), hro0]
    rfl

/-- Witness for C2 at the concrete 2×2 identity setup. -/
theorem identity_weights_roundtrip_witness :
    ((⟨[2, 2], [FV.val 1, FV.val 2, FV.val 3, FV.val 4], true⟩ : NDArray).c_contig
        = true
      ∧ (2 : ℕ) * 2 = 4)
    ∧ esmf_apply_weights (idCoo 4)
        ⟨[2, 2], [FV.val 1, FV.val 2, FV.val 3, FV.val 4], true⟩ (2, 2) (2, 2)
      = .ok ⟨[2, 2], [FV.val 1, FV.val 2, FV.val 3, FV.val 4], true⟩
    ∧ regrid_dataarray
        (regridder_init (2, 2) (2, 2) [1, 1, 1, 1]
          [(1, 1, 1), (2, 2, 1), (3, 3, 1), (4, 4, 1)])
        ⟨[2, 2], [FV.val 1, FV.val 2, FV.val 3, FV.val 4], true⟩ true true
        ⟨"warn", "warn", "warn", "warn"⟩
      = (.ok ⟨[2, 2], [FV.val 1, FV.val 2, FV.val 3, FV.val 4], true⟩,
         ⟨"warn", "warn", "warn", "warn"⟩) := by
  have h := identity_weights_roundtrip 4
    ⟨[2, 2], [FV.val 1, FV.val 2, FV.val 3, FV.val 4], true⟩ (2, 2)
    ⟨"warn", "warn", "warn", "warn"⟩ rfl (by decide) (by decide) (by decide)
  exact ⟨⟨rfl, by decide⟩, h.1, h.2⟩

/-- C3: for every positive grid size the total cell area of the generated
grid is exactly the full-sphere solid angle `4π` (the floating-point
tolerance of `assert_allclose` collapses to equality in the exact-real
model), generation succeeds, and whenever the area-sum invariant fails the
generation aborts with the assertion error instead of returning a grid. -/
theorem grid_area_sum_four_pi (nx ny : ℕ) (lon0 : ℚ) (m : Option (List ℤ))
    (hx : 0 < nx) (hy : 0 < ny) :
    areaSum nx ny lon0 = 4 * Real.pi
    ∧ latlon_to_scrip nx ny lon0 m = .ok (gridDatasetOf nx ny lon0 m)
    ∧ (∀ nx2 ny2 : ℕ, ∀ lon2 : ℚ, ∀ m2 : Option (List ℤ),
        areaSum nx2 ny2 lon2 ≠ 4 * Real.pi →
        latlon_to_scrip nx2 ny2 lon2 m2
          = .error "AssertionError: grid_area.sum() is not close to 4*pi") := by
  refine ⟨areaSum_eq nx ny lon0 hx hy, latlon_to_scrip_ok nx ny lon0 m hx hy, ?_⟩
  intro nx2 ny2 lon2 m2 hne
  unfold latlon_to_scrip
  rw [if_neg hne]

/-- Witness for C3 at the 4×2 grid. -/
theorem grid_area_sum_four_pi_witness :
    ((0 : ℕ) < 4 ∧ (0 : ℕ) < 2)
    ∧ areaSum 4 2 (-180) = 4 * Real.pi
    ∧ latlon_to_scrip 4 2 (-180) none = .ok (gridDatasetOf 4 2 (-180) none) := by
  refine ⟨⟨by decide, by decide⟩, ?_, ?_⟩
  · exact (grid_area_sum_four_pi 4 2 (-180) none (by decide) (by decide)).1
  · exact (grid_area_sum_four_pi 4 2 (-180) none (by decide) (by decide)).2.1

/-- C9: for positive `nx`, `ny` and any `lon0` there are exactly `ny`
latitude centers starting at `-90 + dy/2` and stepping `dy = 180/ny`, all
strictly below 90, and exactly `nx` longitude centers starting at
`lon0 + dx/2` and stepping `dx = 360/nx`; in particular the 4×2 grid with
`lon0 = -180` stores `grid_dims = [4, 2]`, has 8 cells, center latitudes
`{-45, 45}` and center longitudes `{-135, -45, 45, 135}`. -/
theorem grid_centers_spec (nx ny : ℕ) (lon0 : ℚ) (hx : 0 < nx) (hy : 0 < ny) :
    (latCenters ny).length = ny
    ∧ (∀ i, i < ny → (latCenters ny).getD i 0
        = -90 + ((180 : ℚ) / ny) / 2 + i * ((180 : ℚ) / ny))
    ∧ (∀ q ∈ latCenters ny, q < 90)
    ∧ (lonCenters nx lon0).length = nx
    ∧ (∀ j, j < nx → (lonCenters nx lon0).getD j 0
        = lon0 + ((360 : ℚ) / nx) / 2 + j * ((360 : ℚ) / nx))
    ∧ (gridDatasetOf 4 2 (-180) none).grid_dims = [4, 2]
    ∧ (gridDatasetOf 4 2 (-180) none).grid_center_lat.length = 8
    ∧ latCenters 2 = [-45, 45]
    ∧ lonCenters 4 (-180) = [-135, -45, 45, 135] := by
  refine ⟨latCenters_length ny hy,
    fun i hi => latCenters_getD ny i 0 hy hi,
    latCenters_lt ny hy,
    lonCenters_length nx lon0 hx,
    fun j hj => lonCenters_getD nx j lon0 0 hx hj,
    rfl, ?_, ?_, ?_⟩
  · simp [gridDatasetOf, y_center_flat]
  · unfold latCenters np_arange
    rw [latCount 2 (by decide)]
    rw [show List.range 2 = [0, 1] from rfl]
    norm_num
  · unfold lonCenters np_arange
    rw [lonCount 4 (-180) (by decide)]
    rw [show List.range 4 = [0, 1, 2, 3] from rfl]
    norm_num

/-- Witness for C9 at `nx = 4`, `ny = 2`, `lon0 = -180`. -/
theorem grid_centers_spec_witness :
    ((0 : ℕ) < 4 ∧ (0 : ℕ) < 2)
    ∧ (latCenters 2).length = 2
    ∧ (lonCenters 4 (-180)).length = 4
    ∧ latCenters 2 = [-45, 45]
    ∧ lonCenters 4 (-180) = [-135, -45, 45, 135] := by
  have h := grid_centers_spec 4 2 (-180) (by decide) (by decide)
  exact ⟨⟨by decide, by decide⟩, h.1, h.2.2.2.1, h.2.2.2.2.2.2.2.1, h.2.2.2.2.2.2.2.2⟩

end Copepod
